import Mathlib

/-!
Shallow embedding of the mask-construction, positional-embedding, masked-loss and
decoding logic of the Keras_Text notebooks, together with theorems settling the
spec's claims about them.

Tensors are embedded as nested lists indexed batch-first; boolean masks as lists of
`Bool`, integer masks as lists of `Nat` (the source's int32 masks only take the
values 0 and 1).  Learned tables and framework numeric kernels (embedding lookup,
per-position cross-entropy, next-token sampling) are abstract parameters.
-/

/-- Entry (b, i, j) of a rank-3 tensor represented as nested lists (0 out of bounds). -/
def entry3 (t : List (List (List Nat))) (b i j : Nat) : Nat :=
  ((t.getD b []).getD i []).getD j 0

/-- Embeds tf.cast(mask[:, tf.newaxis, :], dtype="int32"): a boolean (B, L) mask
becomes an integer (B, 1, L) tensor. -/
def castMaskNewaxis (mask : List (List Bool)) : List (List (List Nat)) :=
  mask.map fun row => [row.map fun x => if x then 1 else 0]

/-- Embeds tf.minimum(a, b) for a of shape (B, 1, L) and b of shape (B, L, L): the
middle axis of size 1 broadcasts across the rows of b. -/
def tfMinimumBroadcast (pad causal : List (List (List Nat))) : List (List (List Nat)) :=
  List.zipWith (fun ps cs => cs.map fun crow => List.zipWith min (ps.headD []) crow)
    pad causal

/-- Embeds TransformerDecoder.get_causal_attention_mask: mask[i][j] = cast(i ≥ j),
reshaped to (1, L, L) and tiled batch_size times.  Only the shape (batch_size,
sequence_length) of the inputs is read, mirroring tf.shape(inputs). -/
def TransformerDecoder.get_causal_attention_mask (inputs : List (List Nat)) :
    List (List (List Nat)) :=
  let batch_size := inputs.length
  let sequence_length := (inputs.headD []).length
  let mask := (List.range sequence_length).map fun i =>
    (List.range sequence_length).map fun j => if i ≥ j then 1 else 0
  (List.range batch_size).map fun _ => mask

/-- Embeds the padding_mask computed by TransformerDecoder.call when mask is not None:
tf.minimum(tf.cast(mask[:, tf.newaxis, :], "int32"), causal_mask). -/
def TransformerDecoder.combined_padding_mask (inputs : List (List Nat))
    (mask : List (List Bool)) : List (List (List Nat)) :=
  tfMinimumBroadcast (castMaskNewaxis mask)
    (TransformerDecoder.get_causal_attention_mask inputs)

/-- Embeds the attention_mask arguments passed by TransformerDecoder.call, in order,
paired with the Python error aborting the call when one is raised: attention_1
(self-attention) always receives causal_mask; attention_2 (cross-attention) receives
padding_mask, which with mask = None was never assigned, so that call raises
UnboundLocalError after attention_1 has already run. -/
def TransformerDecoder.callTrace (inputs : List (List Nat))
    (mask : Option (List (List Bool))) :
    List (List (List (List Nat))) × Option String :=
  let causal_mask := TransformerDecoder.get_causal_attention_mask inputs
  match mask with
  | some m => ([causal_mask, TransformerDecoder.combined_padding_mask inputs m], none)
  | none =>
    ([causal_mask],
      some "UnboundLocalError: local variable padding_mask referenced before assignment")

/-- Embeds the attention_mask argument passed by TransformerEncoder.call: with a
non-None mask it is tf.cast(mask[:, tf.newaxis, :], "int32"); with mask = None the
local padding_mask is never assigned and the attention call raises UnboundLocalError. -/
def TransformerEncoder.callAttentionMask (mask : Option (List (List Bool))) :
    Except String (List (List (List Nat))) :=
  match mask with
  | some m => Except.ok (castMaskNewaxis m)
  | none =>
    Except.error "UnboundLocalError: local variable padding_mask referenced before assignment"

/-- Entry (b, i, j) of an attention mask the way MultiHeadAttention reads it: an axis
of size 1 is broadcast (repeated) across the corresponding query axis. -/
def broadcastEntry (t : List (List (List Nat))) (b i j : Nat) : Nat :=
  let s := t.getD b []
  (s.getD (if s.length = 1 then 0 else i) []).getD j 0

/-- Whether query position i of batch row b may attend to key position j under an
optional attention mask: None imposes no restriction; otherwise a nonzero entry of the
broadcast mask allows attention. -/
def attnAllowed (mask : Option (List (List (List Nat)))) (b i j : Nat) : Bool :=
  match mask with
  | none => true
  | some m => broadcastEntry m b i j != 0

/-- Embeds the attention_mask argument of the self-attention call in
TransformerBlock.call of the NER notebook: self.att(inputs, inputs) passes no mask. -/
def TransformerBlock.attention_mask (_inputs : List (List Nat)) :
    Option (List (List (List Nat))) :=
  none

/-- Elementwise sum of two embedding vectors. -/
def vecAdd (a b : List Int) : List Int := List.zipWith (· + ·) a b

/-- Embeds PositionalEmbedding.call (translation notebook):
token_embeddings(inputs) + position_embeddings(range(length)), the position row being
broadcast across the batch axis.  The learned tables are abstract parameters. -/
def PositionalEmbedding.call (tokenEmb posEmb : Nat → List Int)
    (inputs : List (List Nat)) : List (List (List Int)) :=
  let length := (inputs.headD []).length
  let positions := List.range length
  inputs.map fun row => List.zipWith (fun tok p => vecAdd (tokenEmb tok) (posEmb p))
    row positions

/-- Embeds TokenAndPositionEmbedding.call (NER notebook): the same computation with
the two embedding lookups written in the opposite order. -/
def TokenAndPositionEmbedding.call (tokenEmb posEmb : Nat → List Int)
    (inputs : List (List Nat)) : List (List (List Int)) :=
  let maxlen := (inputs.headD []).length
  let positions := List.range maxlen
  inputs.map fun row => List.zipWith (fun tok p => vecAdd (tokenEmb tok) (posEmb p))
    row positions

/-- Embeds PositionalEmbedding.compute_mask: tf.math.not_equal(inputs, 0). -/
def PositionalEmbedding.compute_mask (inputs : List (List Nat)) : List (List Bool) :=
  inputs.map fun row => row.map fun t => t != 0

/-- Embeds CustomNonPaddingTokenLoss.call: per-position sparse categorical
cross-entropy (the kernel scce is an abstract collaborator), multiplied elementwise by
the 0/1 mask cast(y_true > 0), summed, and divided by the mask sum. -/
def CustomNonPaddingTokenLoss.call (scce : Nat → List ℚ → ℚ)
    (y_true : List (List Nat)) (y_pred : List (List (List ℚ))) : ℚ :=
  let loss := List.zipWith (fun trow prow =>
    List.zipWith (fun t p => scce t p) trow prow) y_true y_pred
  let mask := y_true.map fun row => row.map fun t => if 0 < t then (1 : ℚ) else 0
  let masked := List.zipWith (fun lrow mrow =>
    List.zipWith (· * ·) lrow mrow) loss mask
  ((masked.map List.sum).sum) / ((mask.map List.sum).sum)

/-- Reading of the masked loss taken from the spec's words, for comparison with
CustomNonPaddingTokenLoss.call: the sum of per-token cross-entropy restricted to the
positions whose true label is positive, divided by the number of such positions. -/
def maskedLossSpecReading (scce : Nat → List ℚ → ℚ)
    (y_true : List (List Nat)) (y_pred : List (List (List ℚ))) : ℚ :=
  let contrib := List.zipWith (fun trow prow =>
    List.zipWith (fun t p => if 0 < t then scce t p else 0) trow prow) y_true y_pred
  let cnt : Nat := (y_true.map fun row => row.countP fun t => decide (0 < t)).sum
  ((contrib.map List.sum).sum) / (cnt : ℚ)

/-- The end-of-sequence token of the translation decoding loop. -/
def endToken : String := "[end]"

/-- The iteration bound of decode_sequence. -/
def max_decoded_sentence_length : Nat := 20

/-- Embeds the loop body of decode_sequence, fuel-indexed: at step index steps the
abstract transformer sample (mapping the step index and the decoded sentence so far to
the argmax-sampled token) is appended after a space, and the loop breaks when the
sampled token equals "[end]".  Returns the decoded sentence and the number of
iterations executed. -/
def decodeGo (sample : Nat → String → String) : Nat → Nat → String → String × Nat
  | 0, steps, decoded => (decoded, steps)
  | fuel + 1, steps, decoded =>
    let sampled_token := sample steps decoded
    let decoded2 := decoded ++ " " ++ sampled_token
    if sampled_token = endToken then (decoded2, steps + 1)
    else decodeGo sample fuel (steps + 1) decoded2

/-- Embeds decode_sequence: starts from "[start]" and iterates at most
max_decoded_sentence_length times. -/
def decode_sequence (sample : Nat → String → String) : String × Nat :=
  decodeGo sample max_decoded_sentence_length 0 "[start]"

/-- The decoded sentence after k completed iterations none of which broke the loop. -/
def decodedAfter (sample : Nat → String → String) : Nat → String
  | 0 => "[start]"
  | k + 1 => decodedAfter sample k ++ " " ++ sample k (decodedAfter sample k)

/-- The token sampled at iteration k of the decoding loop. -/
def sampledAt (sample : Nat → String → String) (k : Nat) : String :=
  sample k (decodedAfter sample k)

/-- CharacterTable: a character vocabulary, kept sorted and duplicate-free by its
constructor. -/
structure CharacterTable where
  chars : List Char

/-- Insertion of a character into a sorted list, the building block of the sort used
below. -/
def insertSorted (c : Char) : List Char → List Char
  | [] => [c]
  | a :: t => if c ≤ a then c :: a :: t else a :: insertSorted c t

/-- Embeds CharacterTable.__init__: self.chars = sorted(set(chars)), realized as an
insertion sort over the deduplicated characters (any sort produces the same sorted
duplicate-free list). -/
def CharacterTable.ofString (s : String) : CharacterTable :=
  ⟨(s.toList.dedup).foldr insertSorted []⟩

/-- Embeds the char_indices dict: the index of a character in the vocabulary (the
vocabulary is duplicate-free, so first occurrence agrees with the dict). -/
def CharacterTable.char_indices (T : CharacterTable) (c : Char) : Nat :=
  T.chars.indexOf c

/-- Embeds CharacterTable.encode: x = np.zeros((num_rows, len(chars))) followed by
x[i, char_indices[C_i]] = 1 for each position i of C.  The float entries of the
source's array only take the values 0 and 1, embedded as naturals. -/
def CharacterTable.encode (T : CharacterTable) (C : List Char) (num_rows : Nat) :
    List (List Nat) :=
  (List.range num_rows).map fun i =>
    if i < C.length then
      (List.replicate T.chars.length 0).set (T.char_indices (C.getD i ' ')) 1
    else List.replicate T.chars.length 0

/-- Embeds np.argmax over a vector: the first index attaining the maximum (0 on an
empty input). -/
def npArgmax : List Nat → Nat
  | [] => 0
  | x :: xs => if x < xs.foldr max 0 then npArgmax xs + 1 else 0

/-- Embeds the indices_char lookup joined over a vector of indices: the
calc_argmax = False path of CharacterTable.decode, whose input is already a vector of
character indices. -/
def CharacterTable.decodeIndices (T : CharacterTable) (idxs : List Nat) : List Char :=
  idxs.map fun v => T.chars.getD v ' '

/-- Embeds CharacterTable.decode with calc_argmax = True: x = x.argmax(axis=-1)
followed by joining indices_char over the indices. -/
def CharacterTable.decode (T : CharacterTable) (x : List (List Nat)) : List Char :=
  T.decodeIndices (x.map npArgmax)

/-- The concrete table built in the addition notebook: all digits, plus sign and the
space used for padding. -/
def ctable : CharacterTable := CharacterTable.ofString "0123456789+ "

/-- Number of entries equal to 1 in an integer matrix. -/
def onesCount (m : List (List Nat)) : Nat := (m.map fun row => row.count 1).sum

/-! ### General list access lemmas -/

theorem getD_map_range {α : Type} (f : Nat → α) {n k : Nat} (d : α) (h : k < n) :
    ((List.range n).map f).getD k d = f k := by
  have hl : k < ((List.range n).map f).length := by simpa using h
  rw [List.getD_eq_getElem _ _ hl]
  simp

theorem getD_zipWith {α β γ : Type} (f : α → β → γ) (as : List α) (bs : List β)
    (k : Nat) (d : γ) (da : α) (db : β) (ha : k < as.length) (hb : k < bs.length) :
    (List.zipWith f as bs).getD k d = f (as.getD k da) (bs.getD k db) := by
  have hl : k < (List.zipWith f as bs).length := by rw [List.length_zipWith]; omega
  rw [List.getD_eq_getElem _ _ hl, List.getElem_zipWith,
    List.getD_eq_getElem _ _ ha, List.getD_eq_getElem _ _ hb]

theorem getD_map {α β : Type} (f : α → β) (l : List α) (k : Nat) (d : β) (dl : α)
    (h : k < l.length) :
    (l.map f).getD k d = f (l.getD k dl) := by
  have hl : k < (l.map f).length := by simpa using h
  rw [List.getD_eq_getElem _ _ hl, List.getElem_map, List.getD_eq_getElem _ _ h]

theorem getD_mem {α : Type} (l : List α) (k : Nat) (d : α) (h : k < l.length) :
    l.getD k d ∈ l := by
  rw [List.getD_eq_getElem _ _ h]
  exact List.getElem_mem h

/-! ### Causal mask lemmas -/

theorem causal_mask_getD (inputs : List (List Nat)) (b : Nat) (hb : b < inputs.length) :
    (TransformerDecoder.get_causal_attention_mask inputs).getD b []
      = (List.range (inputs.headD []).length).map fun i =>
          (List.range (inputs.headD []).length).map fun j => if i ≥ j then 1 else 0 := by
  simp only [TransformerDecoder.get_causal_attention_mask]
  exact getD_map_range _ _ hb

theorem causal_row_count (i L : Nat) :
    (((List.range L).map fun j => if i ≥ j then (1 : Nat) else 0).count 1)
      = min (i + 1) L := by
  induction L with
  | zero => simp
  | succ n ih =>
    rw [List.range_succ, List.map_append, List.count_append, ih]
    by_cases h : i ≥ n
    · simp [h]
      omega
    · simp [h]
      omega

theorem range_map_succ_sum (L : Nat) :
    2 * (((List.range L).map fun i => i + 1).sum) = L * (L + 1) := by
  induction L with
  | zero => simp
  | succ n ih =>
    rw [List.range_succ, List.map_append, List.sum_append]
    simp only [List.map_cons, List.map_nil, List.sum_cons, List.sum_nil]
    nlinarith [ih]

theorem causal_matrix_count (L : Nat) :
    onesCount ((List.range L).map fun i =>
      (List.range L).map fun j => if i ≥ j then (1 : Nat) else 0) = L * (L + 1) / 2 := by
  unfold onesCount
  rw [List.map_map]
  have h1 : (List.range L).map ((fun row => row.count 1) ∘ fun i =>
        (List.range L).map fun j => if i ≥ j then (1 : Nat) else 0)
      = (List.range L).map fun i => i + 1 := by
    apply List.map_congr_left
    intro a ha
    have haL : a < L := List.mem_range.mp ha
    simp only [Function.comp]
    rw [causal_row_count, Nat.min_eq_left (by omega)]
  rw [h1]
  have h2 := range_map_succ_sum L
  omega

/-- C2: every batch slice of the causal mask built by
TransformerDecoder.get_causal_attention_mask is the same (L, L) lower-triangular
matrix with entry (i, j) = 1 iff j ≤ i, containing exactly L*(L+1)/2 ones, and the
mask depends only on the shape of the input (batch size and sequence length), not on
the batch row or on the token values. -/
theorem C2_causal_mask_lower_triangular
    (inputs : List (List Nat)) (L b : Nat)
    (hL : (inputs.headD []).length = L)
    (hb : b < inputs.length) :
    (TransformerDecoder.get_causal_attention_mask inputs).getD b []
      = ((List.range L).map fun i => (List.range L).map fun j => if j ≤ i then 1 else 0)
    ∧ onesCount ((TransformerDecoder.get_causal_attention_mask inputs).getD b [])
        = L * (L + 1) / 2
    ∧ ∀ inputs' : List (List Nat), inputs'.length = inputs.length →
        (inputs'.headD []).length = L →
        TransformerDecoder.get_causal_attention_mask inputs'
          = TransformerDecoder.get_causal_attention_mask inputs := by
  have hslice := causal_mask_getD inputs b hb
  rw [hL] at hslice
  have htri : ((List.range L).map fun i =>
        (List.range L).map fun j => if i ≥ j then (1 : Nat) else 0)
      = (List.range L).map fun i =>
        (List.range L).map fun j => if j ≤ i then 1 else 0 := by
    simp [ge_iff_le]
  refine ⟨hslice.trans htri, ?_, ?_⟩
  · rw [hslice]
    exact causal_matrix_count L
  · intro inputs' hB hL2
    simp only [TransformerDecoder.get_causal_attention_mask]
    rw [hB, hL2, hL]

/-! ### Combined decoder mask lemmas -/

theorem combined_entry
    (inputs : List (List Nat)) (m : List (List Bool)) (L b i j : Nat)
    (hBm : m.length = inputs.length)
    (hLi : (inputs.headD []).length = L)
    (hLm : ∀ r ∈ m, r.length = L)
    (hb : b < m.length) (hi : i < L) (hj : j < L) :
    entry3 (TransformerDecoder.combined_padding_mask inputs m) b i j
      = min (if (m.getD b []).getD j false then 1 else 0) (if i ≥ j then 1 else 0) := by
  have hbi : b < inputs.length := by omega
  have hrowlen : (m.getD b []).length = L := hLm _ (getD_mem m b [] hb)
  have hclen : (TransformerDecoder.get_causal_attention_mask inputs).length
      = inputs.length := by
    simp [TransformerDecoder.get_causal_attention_mask]
  have hcastlen : (castMaskNewaxis m).length = m.length := by simp [castMaskNewaxis]
  have hslice : (tfMinimumBroadcast (castMaskNewaxis m)
        (TransformerDecoder.get_causal_attention_mask inputs)).getD b []
      = ((TransformerDecoder.get_causal_attention_mask inputs).getD b []).map
          fun crow => List.zipWith min (((castMaskNewaxis m).getD b []).headD []) crow := by
    unfold tfMinimumBroadcast
    exact getD_zipWith _ _ _ b [] [] [] (by omega) (by omega)
  have hcast : (castMaskNewaxis m).getD b []
      = [(m.getD b []).map fun x => if x then 1 else 0] := by
    unfold castMaskNewaxis
    exact getD_map _ m b [] [] hb
  have hcausal := causal_mask_getD inputs b hbi
  rw [hLi] at hcausal
  unfold entry3 TransformerDecoder.combined_padding_mask
  rw [hslice, hcast, hcausal, List.map_map]
  simp only [List.headD_cons]
  rw [getD_map_range _ _ hi]
  simp only [Function.comp_apply]
  rw [getD_zipWith min _ _ j 0 0 0 (by rw [List.length_map]; omega)
    (by rw [List.length_map, List.length_range]; exact hj)]
  rw [getD_map _ _ j 0 false (by omega), getD_map_range _ _ hj]

theorem min_mask_entry (p : Bool) (i j : Nat) :
    min (if p then 1 else 0) (if i ≥ j then (1 : Nat) else 0)
      = if i < j ∨ p = false then 0 else 1 := by
  cases p
  · simp
  · by_cases hij : j ≤ i
    · have h1 : ¬i < j := by omega
      simp [ge_iff_le, hij, h1]
    · have h1 : i < j := by omega
      simp [ge_iff_le, hij, h1]

/-- C1: the combined mask computed by the decoder from the causal mask C and the
padding mask P has entry (b, i, j) equal to min(C[i][j], P[b][j]); equivalently it is
0 exactly when j > i or P[b][j] = 0, and 1 otherwise. -/
theorem C1_decoder_effective_mask
    (inputs : List (List Nat)) (m : List (List Bool)) (L b i j : Nat)
    (hBm : m.length = inputs.length)
    (hLi : (inputs.headD []).length = L)
    (hLm : ∀ r ∈ m, r.length = L)
    (hb : b < m.length) (hi : i < L) (hj : j < L) :
    entry3 (TransformerDecoder.combined_padding_mask inputs m) b i j
      = min (if j ≤ i then 1 else 0) (if (m.getD b []).getD j false then 1 else 0)
    ∧ entry3 (TransformerDecoder.combined_padding_mask inputs m) b i j
      = (if i < j ∨ (m.getD b []).getD j false = false then 0 else 1) := by
  have h := combined_entry inputs m L b i j hBm hLi hLm hb hi hj
  constructor
  · rw [h]
    simp only [ge_iff_le]
    exact Nat.min_comm _ _
  · rw [h]
    exact min_mask_entry _ i j

/-- Witness for C1 at inputs = [[1, 2, 3, 4]], P = [1, 1, 1, 0], b = 0, i = 3, j = 3:
the causal mask allows the entry but the padding mask zeroes it (last column). -/
theorem C1_witness :
    entry3 (TransformerDecoder.combined_padding_mask [[1, 2, 3, 4]]
        [[true, true, true, false]]) 0 3 3
      = min (if 3 ≤ 3 then 1 else 0)
          (if ([[true, true, true, false]].getD 0 []).getD 3 false then 1 else 0)
    ∧ entry3 (TransformerDecoder.combined_padding_mask [[1, 2, 3, 4]]
        [[true, true, true, false]]) 0 3 3
      = (if 3 < 3 ∨ ([[true, true, true, false]].getD 0 []).getD 3 false = false
          then 0 else 1) :=
  C1_decoder_effective_mask [[1, 2, 3, 4]] [[true, true, true, false]] 4 0 3 3
    (by decide) (by decide) (by decide) (by decide) (by decide) (by decide)

/-- C3 fails as stated: with inputs of shape (1, 2) and padding mask P = [1, 0], the
mask passed to the decoder's self-attention (the first traced attention call) is the
causal mask alone, not the combined min(C, P): its entry (0, 1, 1) is 1 even though
P[0][1] = 0, so the padding key j = 1 is not masked for query i = 1 in self-attention. -/
theorem C3_counterexample :
    ((TransformerDecoder.callTrace [[1, 1]] (some [[true, false]])).1.getD 0 [])
        ≠ TransformerDecoder.combined_padding_mask [[1, 1]] [[true, false]]
    ∧ entry3 ((TransformerDecoder.callTrace [[1, 1]]
        (some [[true, false]])).1.getD 0 []) 0 1 1 = 1
    ∧ ([[true, false]].getD 0 []).getD 1 false = false := by decide

/-- C3 amended: in every decoder forward pass with a non-None mask, exactly two
attention calls are made: self-attention receives the causal mask alone, and only
cross-attention receives the combined mask min(C, P); in that cross-attention mask
every padding key position (P[b][j] = 0) has entry 0 for every query position i. -/
theorem C3_amended_cross_attention_mask
    (inputs : List (List Nat)) (m : List (List Bool)) (L b i j : Nat)
    (hBm : m.length = inputs.length)
    (hLi : (inputs.headD []).length = L)
    (hLm : ∀ r ∈ m, r.length = L)
    (hb : b < m.length) (hi : i < L) (hj : j < L)
    (hpad : (m.getD b []).getD j false = false) :
    TransformerDecoder.callTrace inputs (some m)
      = ([TransformerDecoder.get_causal_attention_mask inputs,
          TransformerDecoder.combined_padding_mask inputs m], none)
    ∧ entry3 (TransformerDecoder.combined_padding_mask inputs m) b i j = 0 := by
  refine ⟨rfl, ?_⟩
  rw [combined_entry inputs m L b i j hBm hLi hLm hb hi hj, hpad]
  simp

/-- Witness for C3's amended statement at inputs = [[1, 1]], P = [1, 0], b = 0,
i = 1, j = 1. -/
theorem C3_amended_witness :
    TransformerDecoder.callTrace [[1, 1]] (some [[true, false]])
      = ([TransformerDecoder.get_causal_attention_mask [[1, 1]],
          TransformerDecoder.combined_padding_mask [[1, 1]] [[true, false]]], none)
    ∧ entry3 (TransformerDecoder.combined_padding_mask [[1, 1]] [[true, false]])
        0 1 1 = 0 :=
  C3_amended_cross_attention_mask [[1, 1]] [[true, false]] 2 0 1 1
    (by decide) (by decide) (by decide) (by decide) (by decide) (by decide) (by decide)

/-! ### Encoder mask lemmas -/

theorem broadcastEntry_cast (m : List (List Bool)) (b i j : Nat) (hb : b < m.length) :
    broadcastEntry (castMaskNewaxis m) b i j
      = if (m.getD b []).getD j false then 1 else 0 := by
  have hcast : (castMaskNewaxis m).getD b []
      = [(m.getD b []).map fun x => if x then 1 else 0] := by
    unfold castMaskNewaxis
    exact getD_map _ m b [] [] hb
  unfold broadcastEntry
  rw [hcast]
  simp only [List.length_cons, List.length_nil, if_pos rfl, List.getD_cons_zero]
  by_cases hj : j < (m.getD b []).length
  · exact getD_map _ _ j 0 false hj
  · rw [List.getD_eq_default, List.getD_eq_default]
    · simp
    · omega
    · simpa using (by omega : (m.getD b []).length ≤ j)

/-- C5 fails as stated at the NER TransformerBlock (one of its two cited sources):
that block's self-attention call passes no attention mask at all, so with
inputs = [[5, 0]] — position 1 holding the reserved padding id 0 — query 0 may attend
to the padding key position 1, which the claimed mask effective[b][i][j] = P[b][j]
would forbid. -/
theorem C5_counterexample :
    TransformerBlock.attention_mask [[5, 0]] = none
    ∧ attnAllowed (TransformerBlock.attention_mask [[5, 0]]) 0 0 1 = true
    ∧ ([[5, 0]].getD 0 []).getD 1 0 = 0 := by decide

/-- C5 amended: in the translation TransformerEncoder with a non-None mask, the mask
passed to the attention scores is tf.cast(mask[:, newaxis, :]), whose broadcast entry
(b, i, j) equals P[b][j] — independent of the query position i, with no causal
restriction; the NER TransformerBlock instead passes no attention mask at all, so its
self-attention is completely unrestricted. -/
theorem C5_amended_encoder_padding_only
    (m : List (List Bool)) (b i j : Nat) (hb : b < m.length) :
    TransformerEncoder.callAttentionMask (some m) = Except.ok (castMaskNewaxis m)
    ∧ broadcastEntry (castMaskNewaxis m) b i j
        = (if (m.getD b []).getD j false then 1 else 0)
    ∧ (∀ i2, broadcastEntry (castMaskNewaxis m) b i j
        = broadcastEntry (castMaskNewaxis m) b i2 j)
    ∧ ∀ inputs : List (List Nat), TransformerBlock.attention_mask inputs = none := by
  refine ⟨rfl, broadcastEntry_cast m b i j hb, ?_, fun _ => rfl⟩
  intro i2
  rw [broadcastEntry_cast m b i j hb, broadcastEntry_cast m b i2 j hb]

/-- Witness for C5's amended statement at P = [[1, 0]], b = 0, i = 1, j = 1. -/
theorem C5_amended_witness :
    TransformerEncoder.callAttentionMask (some [[true, false]])
      = Except.ok (castMaskNewaxis [[true, false]])
    ∧ broadcastEntry (castMaskNewaxis [[true, false]]) 0 1 1
        = (if ([[true, false]].getD 0 []).getD 1 false then 1 else 0)
    ∧ (∀ i2, broadcastEntry (castMaskNewaxis [[true, false]]) 0 1 1
        = broadcastEntry (castMaskNewaxis [[true, false]]) 0 i2 1)
    ∧ ∀ inputs : List (List Nat), TransformerBlock.attention_mask inputs = none :=
  C5_amended_encoder_padding_only [[true, false]] 0 1 1 (by decide)

/-- C6: PositionalEmbedding.compute_mask marks entry (b, j) true exactly when the
token id at (b, j) differs from the reserved padding id 0. -/
theorem C6_compute_mask_not_equal_zero
    (inputs : List (List Nat)) (b j : Nat)
    (hb : b < inputs.length) (hj : j < (inputs.getD b []).length) :
    (((PositionalEmbedding.compute_mask inputs).getD b []).getD j false = true
      ↔ (inputs.getD b []).getD j 0 ≠ 0) := by
  unfold PositionalEmbedding.compute_mask
  rw [getD_map _ inputs b [] [] hb, getD_map _ _ j false 0 hj]
  simp

/-- Witness for C6 at inputs = [[5, 0]], b = 0, j = 0 (a non-padding position). -/
theorem C6_witness :
    (((PositionalEmbedding.compute_mask [[5, 0]]).getD 0 []).getD 0 false = true
      ↔ ([[5, 0]].getD 0 []).getD 0 0 ≠ 0) :=
  C6_compute_mask_not_equal_zero [[5, 0]] 0 0 (by decide) (by decide)

/-- C9: a non-None mask is an unstated precondition of both translation forward
passes: with mask = None the encoder raises UnboundLocalError on the never-assigned
padding_mask instead of computing unmasked attention, and the decoder raises the same
error at its cross-attention call — its trace holds exactly one attention call, the
self-attention with the causal mask, before the error. -/
theorem C9_none_mask_unbound_local :
    TransformerEncoder.callAttentionMask none
      = Except.error
          "UnboundLocalError: local variable padding_mask referenced before assignment"
    ∧ ∀ inputs : List (List Nat),
        TransformerDecoder.callTrace inputs none
          = ([TransformerDecoder.get_causal_attention_mask inputs],
              some "UnboundLocalError: local variable padding_mask referenced before assignment") :=
  ⟨rfl, fun _ => rfl⟩

/-! ### Positional embedding lemmas -/

theorem headD_length_of_forall {L : Nat} (l : List (List Nat))
    (h : ∀ r ∈ l, r.length = L) (hne : l ≠ []) : (l.headD []).length = L := by
  cases l with
  | nil => exact absurd rfl hne
  | cons a t => exact h a (List.mem_cons_self a t)

theorem getD_range (n k : Nat) (h : k < n) : (List.range n).getD k 0 = k := by
  have hl : k < (List.range n).length := by simpa using h
  rw [List.getD_eq_getElem _ _ hl]
  simp

theorem positional_call_entry (tokenEmb posEmb : Nat → List Int)
    (inputs : List (List Nat)) (L b p : Nat)
    (hL : ∀ r ∈ inputs, r.length = L) (hb : b < inputs.length) (hp : p < L) :
    ((PositionalEmbedding.call tokenEmb posEmb inputs).getD b []).getD p []
      = vecAdd (tokenEmb ((inputs.getD b []).getD p 0)) (posEmb p) := by
  have hne : inputs ≠ [] := by
    intro hcon
    rw [hcon] at hb
    simp at hb
  have hhead : (inputs.headD []).length = L := headD_length_of_forall inputs hL hne
  have hrow : (inputs.getD b []).length = L := hL _ (getD_mem inputs b [] hb)
  simp only [PositionalEmbedding.call]
  rw [hhead, getD_map _ inputs b [] [] hb,
    getD_zipWith _ _ _ p [] 0 0 (by omega) (by simpa using hp), getD_range L p hp]

/-- C4: the positional-embedding combiner's output at (b, p) is
token_embedding(token at (b, p)) + position_embedding(p) — p independent of b; the
output at (b, p) is unchanged when tokens at other positions change; and the NER
TokenAndPositionEmbedding computes the same function. -/
theorem C4_positional_embedding
    (tokenEmb posEmb : Nat → List Int) (inputs : List (List Nat)) (L b p : Nat)
    (hL : ∀ r ∈ inputs, r.length = L) (hb : b < inputs.length) (hp : p < L) :
    ((PositionalEmbedding.call tokenEmb posEmb inputs).getD b []).getD p []
      = vecAdd (tokenEmb ((inputs.getD b []).getD p 0)) (posEmb p)
    ∧ (∀ inputs2 : List (List Nat), (∀ r ∈ inputs2, r.length = L) →
        inputs2.length = inputs.length →
        (inputs2.getD b []).getD p 0 = (inputs.getD b []).getD p 0 →
        ((PositionalEmbedding.call tokenEmb posEmb inputs2).getD b []).getD p []
          = ((PositionalEmbedding.call tokenEmb posEmb inputs).getD b []).getD p [])
    ∧ TokenAndPositionEmbedding.call tokenEmb posEmb inputs
        = PositionalEmbedding.call tokenEmb posEmb inputs := by
  refine ⟨positional_call_entry tokenEmb posEmb inputs L b p hL hb hp, ?_, rfl⟩
  intro inputs2 hL2 hlen2 htok
  rw [positional_call_entry tokenEmb posEmb inputs L b p hL hb hp,
    positional_call_entry tokenEmb posEmb inputs2 L b p hL2 (by omega) hp, htok]

/-- Witness for C4 at inputs = [[3, 9]], b = 0, p = 1, with one-dimensional tables. -/
theorem C4_witness :
    ((PositionalEmbedding.call (fun t => [(t : Int)]) (fun q => [(q : Int)])
        [[3, 9]]).getD 0 []).getD 1 []
      = vecAdd ((fun t => [(t : Int)]) (([[3, 9]].getD 0 []).getD 1 0))
          ((fun q => [(q : Int)]) 1)
    ∧ (∀ inputs2 : List (List Nat), (∀ r ∈ inputs2, r.length = 2) →
        inputs2.length = [[3, 9]].length →
        (inputs2.getD 0 []).getD 1 0 = ([[3, 9]].getD 0 []).getD 1 0 →
        ((PositionalEmbedding.call (fun t => [(t : Int)]) (fun q => [(q : Int)])
            inputs2).getD 0 []).getD 1 []
          = ((PositionalEmbedding.call (fun t => [(t : Int)]) (fun q => [(q : Int)])
            [[3, 9]]).getD 0 []).getD 1 [])
    ∧ TokenAndPositionEmbedding.call (fun t => [(t : Int)]) (fun q => [(q : Int)])
        [[3, 9]]
        = PositionalEmbedding.call (fun t => [(t : Int)]) (fun q => [(q : Int)])
        [[3, 9]] :=
  C4_positional_embedding (fun t => [(t : Int)]) (fun q => [(q : Int)]) [[3, 9]] 2 0 1
    (by decide) (by decide) (by decide)

/-! ### Decoding loop lemmas -/

theorem decodeGo_spec (sample : Nat → String → String) :
    ∀ fuel s : Nat,
      s ≤ (decodeGo sample fuel s (decodedAfter sample s)).2
      ∧ (decodeGo sample fuel s (decodedAfter sample s)).2 ≤ s + fuel
      ∧ (1 ≤ fuel → s + 1 ≤ (decodeGo sample fuel s (decodedAfter sample s)).2)
      ∧ (decodeGo sample fuel s (decodedAfter sample s)).1
          = decodedAfter sample (decodeGo sample fuel s (decodedAfter sample s)).2
      ∧ (∀ k, s ≤ k → k + 1 < (decodeGo sample fuel s (decodedAfter sample s)).2 →
          sampledAt sample k ≠ endToken)
      ∧ ((decodeGo sample fuel s (decodedAfter sample s)).2 < s + fuel →
          sampledAt sample ((decodeGo sample fuel s (decodedAfter sample s)).2 - 1)
            = endToken) := by
  intro fuel
  induction fuel with
  | zero =>
    intro s
    have hred : decodeGo sample 0 s (decodedAfter sample s)
        = (decodedAfter sample s, s) := rfl
    rw [hred]
    refine ⟨le_refl s, by omega, by omega, rfl, ?_, by omega⟩
    intro k hk1 hk2
    omega
  | succ n ih =>
    intro s
    by_cases hend : sample s (decodedAfter sample s) = endToken
    · have hred : decodeGo sample (n + 1) s (decodedAfter sample s)
          = (decodedAfter sample (s + 1), s + 1) := by
        simp [decodeGo, hend, decodedAfter]
      rw [hred]
      refine ⟨by omega, by omega, fun _ => by omega, rfl, ?_, ?_⟩
      · intro k hk1 hk2
        omega
      · intro _
        simpa [sampledAt] using hend
    · have hred : decodeGo sample (n + 1) s (decodedAfter sample s)
          = decodeGo sample n (s + 1) (decodedAfter sample (s + 1)) := by
        simp [decodeGo, hend, decodedAfter]
      rw [hred]
      obtain ⟨h1, h2, _, h4, h5, h6⟩ := ih (s + 1)
      refine ⟨by omega, by omega, fun _ => by omega, h4, ?_, ?_⟩
      · intro k hk1 hk2
        by_cases hks : k = s
        · subst hks
          simpa [sampledAt] using hend
        · exact h5 k (by omega) hk2
      · intro hlt
        exact h6 (by omega)

/-- C7: decode_sequence runs at least one and at most max_decoded_sentence_length
(= 20) iterations; its output is the fold of the sampled tokens over the executed
iterations; when it stops before 20 iterations the token sampled at the final executed
iteration is "[end]"; no earlier sampled token is "[end]"; so reaching the bound and
sampling "[end]" are the only exit conditions. -/
theorem C7_decode_sequence_terminates (sample : Nat → String → String) :
    1 ≤ (decode_sequence sample).2
    ∧ (decode_sequence sample).2 ≤ max_decoded_sentence_length
    ∧ (decode_sequence sample).1 = decodedAfter sample (decode_sequence sample).2
    ∧ (∀ k, k + 1 < (decode_sequence sample).2 → sampledAt sample k ≠ endToken)
    ∧ ((decode_sequence sample).2 < max_decoded_sentence_length →
        sampledAt sample ((decode_sequence sample).2 - 1) = endToken) := by
  have h := decodeGo_spec sample max_decoded_sentence_length 0
  have hstart : decodedAfter sample 0 = "[start]" := rfl
  rw [hstart] at h
  obtain ⟨h1, h2, h3, h4, h5, h6⟩ := h
  exact ⟨h3 (by simp [max_decoded_sentence_length]),
    by simpa using h2, h4, fun k hk => h5 k (by omega) hk, by simpa using h6⟩

/-- Witness for C7 with the sampler that immediately emits "[end]". -/
theorem C7_witness :
    1 ≤ (decode_sequence fun _ _ => "[end]").2
    ∧ (decode_sequence fun _ _ => "[end]").2 ≤ max_decoded_sentence_length
    ∧ (decode_sequence fun _ _ => "[end]").2 = 1 :=
  ⟨(C7_decode_sequence_terminates fun _ _ => "[end]").1,
    (C7_decode_sequence_terminates fun _ _ => "[end]").2.1, rfl⟩

/-! ### Masked loss lemmas -/

theorem masked_row_eq (scce : Nat → List ℚ → ℚ) :
    ∀ (trow : List Nat) (prow : List (List ℚ)), trow.length = prow.length →
    (List.zipWith (· * ·) (List.zipWith (fun t p => scce t p) trow prow)
        (trow.map fun t => if 0 < t then (1 : ℚ) else 0)).sum
      = (List.zipWith (fun t p => if 0 < t then scce t p else 0) trow prow).sum := by
  intro trow
  induction trow with
  | nil =>
    intro prow _
    simp
  | cons t ts ih =>
    intro prow h
    cases prow with
    | nil => simp at h
    | cons p ps =>
      simp only [List.zipWith_cons_cons, List.map_cons, List.sum_cons]
      rw [ih ps (by simpa using h)]
      by_cases h0 : 0 < t
      · simp [h0]
      · simp [h0]

theorem masked_num_eq (scce : Nat → List ℚ → ℚ) :
    ∀ (yt : List (List Nat)) (yp : List (List (List ℚ))),
    (∀ pr ∈ yt.zip yp, pr.1.length = pr.2.length) →
    ((List.zipWith (fun lrow mrow => List.zipWith (· * ·) lrow mrow)
        (List.zipWith (fun trow prow =>
          List.zipWith (fun t p => scce t p) trow prow) yt yp)
        (yt.map fun row => row.map fun t =>
          if 0 < t then (1 : ℚ) else 0)).map List.sum).sum
      = ((List.zipWith (fun trow prow =>
          List.zipWith (fun t p => if 0 < t then scce t p else 0) trow prow)
            yt yp).map List.sum).sum := by
  intro yt
  induction yt with
  | nil =>
    intro yp _
    simp
  | cons trow yts ih =>
    intro yp hr
    cases yp with
    | nil => simp
    | cons prow yps =>
      simp only [List.zipWith_cons_cons, List.map_cons, List.sum_cons]
      rw [ih yps (fun pr hpr => hr pr (List.mem_cons_of_mem _ hpr)),
        masked_row_eq scce trow prow (hr (trow, prow) (List.mem_cons_self _ _))]

theorem mask_row_sum (trow : List Nat) :
    ((trow.map fun t => if 0 < t then (1 : ℚ) else 0)).sum
      = ((trow.countP fun t => decide (0 < t) : Nat) : ℚ) := by
  induction trow with
  | nil => simp
  | cons a l ih =>
    simp only [List.map_cons, List.sum_cons, List.countP_cons]
    by_cases h : 0 < a
    · simp only [h, if_pos, decide_eq_true_eq]
      rw [ih]
      push_cast [h]
      ring
    · simp only [h, if_neg, decide_eq_true_eq]
      rw [ih]
      push_cast [h]
      ring

theorem mask_den_eq :
    ∀ yt : List (List Nat),
    (((yt.map fun row => row.map fun t =>
        if 0 < t then (1 : ℚ) else 0)).map List.sum).sum
      = (((yt.map fun row => row.countP fun t => decide (0 < t)).sum : Nat) : ℚ) := by
  intro yt
  induction yt with
  | nil => simp
  | cons r rs ih =>
    simp only [List.map_cons, List.sum_cons]
    rw [ih, mask_row_sum]
    push_cast
    ring

/-- C8: the NER masked loss equals the sum of per-token cross-entropy restricted to
the positions with a positive true label, divided by the number of such positions;
positions with the padding label 0 contribute nothing to the numerator. -/
theorem C8_masked_loss_excludes_padding
    (scce : Nat → List ℚ → ℚ) (y_true : List (List Nat)) (y_pred : List (List (List ℚ)))
    (_hlen : y_true.length = y_pred.length)
    (hrows : ∀ pr ∈ y_true.zip y_pred, pr.1.length = pr.2.length) :
    CustomNonPaddingTokenLoss.call scce y_true y_pred
      = maskedLossSpecReading scce y_true y_pred := by
  simp only [CustomNonPaddingTokenLoss.call, maskedLossSpecReading]
  rw [masked_num_eq scce y_true y_pred hrows, mask_den_eq y_true]

/-- Witness for C8 with scce t p = t, y_true = [[0, 2, 3], [1, 0, 0]] and empty
prediction vectors: both sides evaluate to (2 + 3 + 1) / 3 = 2. -/
theorem C8_witness :
    CustomNonPaddingTokenLoss.call (fun t _ => (t : ℚ)) [[0, 2, 3], [1, 0, 0]]
        [[[], [], []], [[], [], []]]
      = maskedLossSpecReading (fun t _ => (t : ℚ)) [[0, 2, 3], [1, 0, 0]]
        [[[], [], []], [[], [], []]]
    ∧ CustomNonPaddingTokenLoss.call (fun t _ => (t : ℚ)) [[0, 2, 3], [1, 0, 0]]
        [[[], [], []], [[], [], []]] = 2 :=
  ⟨C8_masked_loss_excludes_padding (fun t _ => (t : ℚ)) [[0, 2, 3], [1, 0, 0]]
      [[[], [], []], [[], [], []]] (by decide) (by decide),
    by simp [CustomNonPaddingTokenLoss.call]; norm_num⟩

/-! ### CharacterTable lemmas -/

theorem foldr_max_replicate_zero : ∀ n : Nat, ((List.replicate n (0 : Nat)).foldr max 0) = 0 := by
  intro n
  induction n with
  | zero => rfl
  | succ k ih => simp [List.replicate_succ, ih]

theorem foldr_max_set_one :
    ∀ m k : Nat, k < m → (((List.replicate m (0 : Nat)).set k 1).foldr max 0) = 1 := by
  intro m
  induction m with
  | zero =>
    intro k h
    omega
  | succ n ih =>
    intro k h
    cases k with
    | zero => simp [List.replicate_succ, foldr_max_replicate_zero]
    | succ k2 =>
      simp only [List.replicate_succ, List.set_cons_succ, List.foldr_cons]
      rw [ih k2 (by omega)]
      decide

theorem npArgmax_set_one :
    ∀ m k : Nat, k < m → npArgmax ((List.replicate m (0 : Nat)).set k 1) = k := by
  intro m
  induction m with
  | zero =>
    intro k h
    omega
  | succ n ih =>
    intro k h
    cases k with
    | zero =>
      simp [List.replicate_succ, npArgmax, foldr_max_replicate_zero]
    | succ k2 =>
      simp only [List.replicate_succ, List.set_cons_succ, npArgmax]
      rw [foldr_max_set_one n k2 (by omega), ih k2 (by omega)]
      simp

/-- C10: one-hot encoding a string over the table's vocabulary and argmax-decoding it
is the identity: decode (encode C (len C)) = C. -/
theorem C10_charactertable_roundtrip (T : CharacterTable) (C : List Char)
    (hC : ∀ c ∈ C, c ∈ T.chars) :
    T.decode (T.encode C C.length) = C := by
  simp only [CharacterTable.decode, CharacterTable.decodeIndices, CharacterTable.encode,
    CharacterTable.char_indices, List.map_map]
  apply List.ext_getElem
  · simp
  · intro n h1 h2
    have hn : n < C.length := by simpa using h1
    rw [List.getElem_map]
    simp only [List.getElem_range]
    simp only [Function.comp_apply, if_pos hn]
    have hmem : C.getD n ' ' ∈ C := getD_mem C n ' ' hn
    have hvocab : C.getD n ' ' ∈ T.chars := hC _ hmem
    have hidx : T.chars.indexOf (C.getD n ' ') < T.chars.length :=
      List.indexOf_lt_length.mpr hvocab
    rw [npArgmax_set_one T.chars.length _ hidx]
    rw [List.getD_eq_getElem _ _ hidx]
    rw [List.getElem_indexOf hidx]
    rw [List.getD_eq_getElem _ _ hn]

/-- Witness for C10 at the addition notebook's table and C = "12+3". -/
theorem C10_witness :
    ctable.decode (ctable.encode "12+3".toList "12+3".toList.length) = "12+3".toList :=
  C10_charactertable_roundtrip ctable "12+3".toList (by decide)

/-- Witness for C2 at inputs = [[7, 7, 7]], L = 3, b = 0. -/
theorem C2_witness :
    (TransformerDecoder.get_causal_attention_mask [[7, 7, 7]]).getD 0 []
      = [[1, 0, 0], [1, 1, 0], [1, 1, 1]]
    ∧ onesCount ((TransformerDecoder.get_causal_attention_mask [[7, 7, 7]]).getD 0 [])
      = 6 := by
  have h := C2_causal_mask_lower_triangular [[7, 7, 7]] 3 0 rfl (by decide)
  exact ⟨h.1.trans (by decide), h.2.1.trans (by decide)⟩
